import Mathlib

/-
Verification development for the GraphSAGE convolution layer
(`sage.py`, class `SAGEConv`).

The layer is shallow-embedded over exact rational arithmetic:
tensors of per-node features become lists of rows (`Mat`), the
learnable linear maps become explicit weight matrices, and the graph
engine primitives the layer consumes (message passing with
copy-source / source-times-edge-weight messages, mean/sum/max/custom
reduction, in-degree queries, local scoping of per-node and per-edge
storage) are modelled at the interface the layer uses.  Dropout is
modelled in evaluation mode (the identity), so forward is a pure
function of its inputs.  Fallible tensor operations (elementwise
addition of mismatched shapes, the edge-weight length assertion, the
unrecognized-aggregator dispatch) return `Except Err`.
-/

namespace SAGE

/-- A feature vector: one row of a feature tensor. -/
abbrev Vec := List ℚ

/-- A feature tensor: a list of per-node feature rows. -/
abbrev Mat := List Vec

/-- Error taxonomy of the layer: `shape` for tensor-shape violations
(the edge-weight assertion, mismatched elementwise addition,
`check_eq_shape`), `config` for the unrecognized-aggregator dispatch
(a `KeyError` in the source), `typeErr` for adding `None` to a
tensor. -/
inductive Err where
  | shape : Err
  | config : String → Err
  | typeErr : Err
deriving DecidableEq, Repr

/-- Dot product of two rows (trailing entries of the longer row are
ignored, as `zipWith` truncates; all well-formed uses have equal
lengths). -/
def dot (r x : Vec) : ℚ := (List.zipWith (fun a b => a * b) r x).sum

/-- Apply a weight matrix (one row per output coordinate) to a feature
row: the model of `nn.Linear` with `bias=False`. -/
def matVec (W : Mat) (x : Vec) : Vec := W.map (fun r => dot r x)

/-- Rectified linear unit on a scalar. -/
def relu (x : ℚ) : ℚ := max x 0

/-- Elementwise addition of two rows with the broadcasting rule of the
tensor substrate: equal lengths add pointwise, a length-one row
broadcasts over the other, and any other combination is a shape
error. -/
def vadd (x y : Vec) : Except Err Vec :=
  if x.length = y.length then .ok (List.zipWith (fun a b => a + b) x y)
  else if y.length = 1 then .ok (x.map (fun a => a + y.headD 0))
  else if x.length = 1 then .ok (y.map (fun b => x.headD 0 + b))
  else .error .shape

/-- Elementwise addition of two feature tensors, row count must agree
and each row pair follows the broadcasting rule of `vadd`. -/
def madd (A B : Mat) : Except Err Mat :=
  if A.length = B.length then (A.zip B).mapM (fun p => vadd p.1 p.2)
  else .error .shape

/-- Broadcast a bias row over every row of a tensor. -/
def addBias (A : Mat) (b : Vec) : Except Err Mat :=
  A.mapM (fun r => vadd r b)

/-- A zero row of the given width. -/
def zeroVec (n : Nat) : Vec := List.replicate n 0

/-- The graph borrowed by one forward call: node counts on the source
and destination sides, the directed edge list (source, destination),
and the sampled-block flag. -/
structure DGLGraph where
  numSrc : Nat
  numDst : Nat
  edges : List (Nat × Nat)
  isBlock : Bool
deriving DecidableEq, Repr

/-- In-degree of a destination node: the number of edges landing on
it. -/
def inDeg (g : DGLGraph) (v : Nat) : Nat :=
  (g.edges.filter (fun e => e.2 == v)).length

/-- The sources of the edges landing on `v`, in edge-list order. -/
def inNbrs (g : DGLGraph) (v : Nat) : List Nat :=
  (g.edges.filter (fun e => e.2 == v)).map (fun e => e.1)

/-- The messages delivered to destination node `v`: one per incoming
edge, in edge-list order.  With no edge weights the message is the
source node row of the working feature `srcH` (`fn.copy_src`); with
edge weights it is that row scaled by the scalar weight of the edge
(`fn.u_mul_e`). -/
def msgs (g : DGLGraph) (srcH : Mat) (ew : Option (List ℚ)) (v : Nat) : List Vec :=
  (g.edges.enum.filter (fun p => p.2.2 == v)).map (fun p =>
    match ew with
    | none => srcH.getD p.2.1 []
    | some w => (srcH.getD p.2.1 []).map (fun a => a * w.getD p.1 0))

/-- Sum reducer of the graph engine: vector sum of the messages, the
zero row of width `w` when no message arrives. -/
def reduceSum (w : Nat) (ms : List Vec) : Vec :=
  ms.foldr (fun a b => List.zipWith (fun x y => x + y) a b) (zeroVec w)

/-- Mean reducer of the graph engine: arithmetic mean of the messages,
the zero row of width `w` when no message arrives. -/
def reduceMean (w : Nat) (ms : List Vec) : Vec :=
  if ms.isEmpty then zeroVec w
  else (reduceSum w ms).map (fun a => a / (ms.length : ℚ))

/-- Max reducer of the graph engine: elementwise maximum of the
messages, the zero row of width `w` when no message arrives. -/
def reduceMax (w : Nat) (ms : List Vec) : Vec :=
  match ms with
  | [] => zeroVec w
  | m :: rest => rest.foldl (fun a b => List.zipWith (fun x y => max x y) a b) m

/-- Custom reducer built from the recurrent cell `f` (the model of
`_lstm_reducer`: the cell consumes the mailbox sequence from zero
initial state and returns the final hidden state); destination nodes
with no message receive the zero row, as the engine never invokes a
custom reducer on an empty bucket. -/
def lstmRed (f : List Vec → Vec) (w : Nat) (ms : List Vec) : Vec :=
  if ms.isEmpty then zeroVec w else f ms

/-- The value of `dstdata` key `neigh` after the message-passing phase
of one branch of forward: if the graph has zero edges it is the
pre-filled zero tensor of width `inSrc` (`in_src_feats`) with one row
per destination-side feature row, written by forward before dispatch
and left untouched because `update_all` does nothing on a graph with
no edges; otherwise it is the reduction (with message width `w`) of
the messages of each destination node. -/
def dstNeigh (inSrc w : Nat) (red : Nat → List Vec → Vec) (g : DGLGraph)
    (srcH fd : Mat) (ew : Option (List ℚ)) : Mat :=
  if g.edges.isEmpty then List.replicate fd.length (zeroVec inSrc)
  else (List.range g.numDst).map (fun v => red w (msgs g srcH ew v))

/-- The layer state after construction and migration: configuration
dimensions, the aggregator tag, the variant-specific parameters
(`fc_pool` is the pooling projection `nn.Linear(in_src, in_src)` with
its weight and bias, `lstm` is the recurrent cell modelled as the
function from a mailbox sequence to the final hidden state, `fc_self`
and `fc_neigh` are bias-free projection matrices), the optional
unified bias, and the optional activation and normalization
callables. -/
structure SAGEConv where
  in_src_feats : Nat
  in_dst_feats : Nat
  out_feats : Nat
  aggre_type : String
  fc_pool : Option (Mat × Vec)
  lstm : Option (List Vec → Vec)
  fc_self : Option Mat
  fc_neigh : Mat
  bias : Option Vec
  activation : Option (ℚ → ℚ)
  norm : Option (Mat → ℚ → Mat)

/-- Normalize the constructor input dimensionality: a single number is
used for both the source and destination sides, a pair is kept. -/
def expand_as_pair (i : Nat ⊕ (Nat × Nat)) : Nat × Nat :=
  match i with
  | .inl n => (n, n)
  | .inr p => p

/-- Construction of the layer (`__init__` followed by the
`reset_parameters` call it ends with): the freshly drawn random
parameter values are passed in as arguments, since the random
initialization itself lives in the external tensor substrate.
Exactly the parameters relevant to the aggregator tag are allocated;
the bias is a zero vector of length `out_feats` when enabled and
absent otherwise. -/
def SAGEConv.construct (in_feats : Nat ⊕ (Nat × Nat)) (out_feats : Nat)
    (aggregator_type : String) (biasFlag : Bool)
    (norm : Option (Mat → ℚ → Mat)) (activation : Option (ℚ → ℚ))
    (wPool : Mat × Vec) (wLstm : List Vec → Vec) (wSelf wNeigh : Mat) : SAGEConv :=
  let p := expand_as_pair in_feats
  { in_src_feats := p.1
    in_dst_feats := p.2
    out_feats := out_feats
    aggre_type := aggregator_type
    fc_pool := if aggregator_type = "pool" then some wPool else none
    lstm := if aggregator_type = "lstm" then some wLstm else none
    fc_self := if aggregator_type ≠ "gcn" then some wSelf else none
    fc_neigh := wNeigh
    bias := if biasFlag then some (zeroVec out_feats) else none
    activation := activation
    norm := norm }

/-- The `reset_parameters` method: re-draws the pooling projection
weight when the variant is pool (its bias is not re-initialized, the
source only re-draws `fc_pool.weight`), resets the recurrent cell
when the variant is lstm, re-draws the self projection when the
variant is not gcn, and always re-draws the neighbor projection.  The
freshly drawn values are arguments, the bias field is never
touched. -/
def SAGEConv.reset_parameters (l : SAGEConv) (rPool : Mat)
    (rLstm : List Vec → Vec) (rSelf rNeigh : Mat) : SAGEConv :=
  { l with
    fc_pool := if l.aggre_type = "pool" then l.fc_pool.map (fun q => (rPool, q.2))
               else l.fc_pool
    lstm := if l.aggre_type = "lstm" then l.lstm.map (fun _ => rLstm) else l.lstm
    fc_self := if l.aggre_type ≠ "gcn" then l.fc_self.map (fun _ => rSelf)
               else l.fc_self
    fc_neigh := rNeigh }

/-- Forward input: a single feature tensor shared by both sides, or an
explicit (source, destination) pair. -/
abbrev FeatIn := Mat ⊕ (Mat × Mat)

/-- Feature preprocessing (dropout is the identity in evaluation
mode): a pair is split, a single tensor is used for both sides except
that on a sampled block the destination side is the prefix of the
source rows of length `numDst`. -/
def splitFeat (g : DGLGraph) (feat : FeatIn) : Mat × Mat :=
  match feat with
  | .inr p => p
  | .inl f => (f, if g.isBlock then f.take g.numDst else f)

/-- The edge-weight assertion of forward: when an edge-weight tensor
is supplied its length must equal the edge count of the graph. -/
def checkEdgeWeight (g : DGLGraph) (ew : Option (List ℚ)) : Except Err Unit :=
  match ew with
  | none => .ok ()
  | some w => if w.length = g.edges.length then .ok () else .error .shape

/-- Width of a feature tensor: the length of its first row. -/
def width (A : Mat) : Nat := (A.headD []).length

/-- The `check_eq_shape` guard of the gcn branch: with a paired input
the source and destination feature widths must agree. -/
def checkEqShape (feat : FeatIn) : Except Err Unit :=
  match feat with
  | .inl _ => .ok ()
  | .inr p => if width p.1 = width p.2 then .ok () else .error .shape

/-- The `lin_before_mp` decision: apply the neighbor projection before
message passing exactly when it shrinks the aggregated width. -/
def lin_before_mp (l : SAGEConv) : Bool := l.in_src_feats > l.out_feats

/-- Application of the pooling projection (weight and bias) to one
row. -/
def applyPoolLin (p : Option (Mat × Vec)) (x : Vec) : Vec :=
  match p with
  | some q => List.zipWith (fun a b => a + b) (matVec q.1 x) q.2
  | none => []

/-- The mean-variant message-passing block of forward, with the
projection-placement boolean made explicit: the working source
feature is the projected row when `before` is true and the raw row
otherwise, the mean reducer aggregates (the zero-edge pre-fill of
width `inSrc` applying as in `dstNeigh`), and the projection is
applied after reduction exactly when it was not applied before. -/
def meanAggCore (W : Mat) (before : Bool) (inSrc : Nat) (g : DGLGraph)
    (fs fd : Mat) (ew : Option (List ℚ)) : Mat :=
  let srcH := if before then fs.map (matVec W) else fs
  let neigh := dstNeigh inSrc (if before then W.length else inSrc) reduceMean g srcH fd ew
  if before then neigh else neigh.map (matVec W)

/-- Division of each aggregated row by the in-degree of its
destination node plus one (the gcn degree normalization); row counts
are engine-enforced to equal the destination node count. -/
def divDegs (s : Mat) (g : DGLGraph) : Mat :=
  List.zipWith (fun row d => row.map (fun a => a / ((d : ℚ) + 1)))
    s ((List.range g.numDst).map (fun v => inDeg g v))

/-- The aggregator dispatch of forward (the message-passing phase):
produces the neighbor aggregate `h_neigh` for the configured variant,
or fails on an unrecognized tag with the error message of the source
(naming the tag).  The gcn branch additionally checks paired input
widths, adds the correspondingly projected destination feature to the
summed messages and divides by in-degree plus one. -/
def aggregate (l : SAGEConv) (g : DGLGraph) (feat : FeatIn)
    (feat_src feat_dst : Mat) (ew : Option (List ℚ)) : Except Err Mat :=
  if l.aggre_type = "mean" then
    .ok (meanAggCore l.fc_neigh (lin_before_mp l) l.in_src_feats g feat_src feat_dst ew)
  else if l.aggre_type = "gcn" then do
    let _ ← checkEqShape feat
    let srcH := if lin_before_mp l then feat_src.map (matVec l.fc_neigh) else feat_src
    let dstH := match feat with
      | .inr _ => if lin_before_mp l then feat_dst.map (matVec l.fc_neigh) else feat_dst
      | .inl _ => if g.isBlock then srcH.take g.numDst else srcH
    let neighSum := dstNeigh l.in_src_feats
      (if lin_before_mp l then l.fc_neigh.length else l.in_src_feats)
      reduceSum g srcH feat_dst ew
    let s ← madd neighSum dstH
    let hN := divDegs s g
    .ok (if lin_before_mp l then hN else hN.map (matVec l.fc_neigh))
  else if l.aggre_type = "pool" then
    .ok ((dstNeigh l.in_src_feats l.in_src_feats reduceMax g
          (feat_src.map (fun x => (applyPoolLin l.fc_pool x).map relu)) feat_dst ew).map
         (matVec l.fc_neigh))
  else if l.aggre_type = "lstm" then
    .ok ((dstNeigh l.in_src_feats l.in_src_feats
          (lstmRed (l.lstm.getD (fun _ => []))) g feat_src feat_dst ew).map
         (matVec l.fc_neigh))
  else .error (.config ("Aggregator type " ++ l.aggre_type ++ " not recognized."))

/-- The bias step of the output combination: add the bias, broadcast
over rows, when one is present. -/
def applyBiasOpt (b? : Option Vec) (A : Mat) : Except Err Mat :=
  match b? with
  | some b => addBias A b
  | none => pure A

/-- The activation step of the output combination: apply the
configured activation elementwise when one is present. -/
def applyActOpt (act : Option (ℚ → ℚ)) (A : Mat) : Mat :=
  match act with
  | some f => A.map (fun r => r.map f)
  | none => A

/-- The normalization step of the output combination: call the
configured normalization function with order 2 when one is
present. -/
def applyNormOpt (norm : Option (Mat → ℚ → Mat)) (A : Mat) : Mat :=
  match norm with
  | some nf => nf A 2
  | none => A

/-- The forward computation of the layer on a migrated instance:
feature preprocessing, the edge-weight assertion, the aggregator
dispatch, then the output combination of the source in order (self
projection plus neighbor aggregate except for gcn, bias if present,
activation if present, normalization called with order 2 if
present). -/
def forward (l : SAGEConv) (g : DGLGraph) (feat : FeatIn)
    (ew : Option (List ℚ)) : Except Err Mat := do
  let fp := splitFeat g feat
  let feat_dst := fp.2
  let _ ← checkEdgeWeight g ew
  let h_self := feat_dst
  let h_neigh ← aggregate l g feat fp.1 feat_dst ew
  let rst ← if l.aggre_type = "gcn" then pure h_neigh
            else madd (h_self.map (matVec (l.fc_self.getD []))) h_neigh
  let rst2 ← applyBiasOpt l.bias rst
  pure (applyNormOpt l.norm (applyActOpt l.activation rst2))

/-- The gcn aggregate as the specification words it, for one
destination node of a homogeneous graph: the sum of the incoming
neighbors' features plus the node's own feature, divided elementwise
by in-degree plus one, with the neighbor projection applied to both
terms before the sum when the source width exceeds the output width
and applied once to the quotient otherwise. -/
def gcnClaimRow (W : Mat) (inSrc out : Nat) (g : DGLGraph) (f : Mat) (v : Nat) : Vec :=
  let d : ℚ := (inDeg g v : ℚ)
  if inSrc > out then
    (List.zipWith (fun a b => a + b)
      (reduceSum W.length ((inNbrs g v).map (fun u => matVec W (f.getD u []))))
      (matVec W (f.getD v []))).map (fun a => a / (d + 1))
  else
    matVec W ((List.zipWith (fun a b => a + b)
      (reduceSum inSrc ((inNbrs g v).map (fun u => f.getD u [])))
      (f.getD v [])).map (fun a => a / (d + 1)))

/-- The output combination as the specification words it: for gcn the
aggregator result is used directly, otherwise the projected
destination features plus the neighbor aggregate; then the bias is
added when present, then the activation is applied elementwise when
present, then the normalization function is applied (with order 2)
when present. -/
def specCombine (l : SAGEConv) (feat_dst hNeigh : Mat) : Except Err Mat := do
  let merged ← if l.aggre_type = "gcn" then pure hNeigh
               else madd (feat_dst.map (matVec (l.fc_self.getD []))) hNeigh
  let withBias ← applyBiasOpt l.bias merged
  pure (applyNormOpt l.norm (applyActOpt l.activation withBias))

/-- The weights of the edges landing on `v`, in edge-list order. -/
def inWeights (g : DGLGraph) (w : List ℚ) (v : Nat) : List ℚ :=
  (g.edges.enum.filter (fun p => p.2.2 == v)).map (fun p => w.getD p.1 0)

/-- The parameter-layout state seen by `_compatibility_check`:
`bias_attr = none` models a legacy instance on which the attribute
`bias` is missing altogether, `bias_attr = some b` models an instance
carrying the attribute with value `b` (where `b = none` is the Python
`None` registered by construction without bias).  The projection
biases of the legacy layout are carried alongside, with
`has_fc_self` recording whether a self projection exists. -/
structure CompatState where
  bias_attr : Option (Option Vec)
  fc_neigh_bias : Option Vec
  has_fc_self : Bool
  fc_self_bias : Option Vec
deriving DecidableEq, Repr

/-- The `_compatibility_check` migration run first by every forward
call: a no-op when the `bias` attribute exists; otherwise it takes
the neighbor-projection bias, clears it, and if a self projection
exists and the taken bias is a tensor, adds the self-projection bias
to it (a type error when that bias is the Python `None`) and clears
it too, finally storing the combined value as the unified `bias`
attribute. -/
def compatibility_check (s : CompatState) : Except Err CompatState :=
  match s.bias_attr with
  | some _ => .ok s
  | none =>
    let b0 := s.fc_neigh_bias
    let s1 : CompatState := { s with fc_neigh_bias := none }
    if s.has_fc_self then
      match b0 with
      | some bn =>
        match s.fc_self_bias with
        | some bs =>
          .ok { s1 with fc_self_bias := none
                        bias_attr := some (some (List.zipWith (fun a b => a + b) bn bs)) }
        | none => .error .typeErr
      | none => .ok { s1 with bias_attr := some none }
    else .ok { s1 with bias_attr := some b0 }

/-- The per-call keyed tensor storage of the graph engine: the
source-node, destination-node and edge frames, each a keyed list (the
edge frame holds the scalar edge weights). -/
structure GraphStore where
  srcdata : List (String × Mat)
  dstdata : List (String × Mat)
  edata : List (String × List ℚ)

/-- Write a key into a keyed frame, shadowing an earlier binding. -/
def storeSet (s : List (String × α)) (k : String) (v : α) : List (String × α) :=
  (k, v) :: s

/-- Read a key from a keyed frame. -/
def storeGet (s : List (String × α)) (k : String) (d : α) : α :=
  match s.find? (fun p => p.1 = k) with
  | some p => p.2
  | none => d

/-- Run a computation whose writes go to a scoped copy of the store
and discard them on every exit path: the model of
`graph.local_scope()`. -/
def localScope (g0 : GraphStore) (body : GraphStore → α × GraphStore) : α × GraphStore :=
  ((body g0).1, g0)

/-- The `update_all` primitive against the frames: a no-op on a graph
with no edges; otherwise it reads the working source feature from key
`h` of the source frame, reads the edge weights from the edge frame
when the message function is `u_mul_e`, and writes the reduction of
each destination node's messages into key `neigh` of the destination
frame. -/
def updateAllSt (g : DGLGraph) (red : Nat → List Vec → Vec) (w : Nat)
    (useEw : Bool) (st : GraphStore) : GraphStore :=
  if g.edges.isEmpty then st
  else
    let srcH := storeGet st.srcdata "h" []
    let ewv := if useEw then some (storeGet st.edata "_edge_weight" []) else none
    let reduced := (List.range g.numDst).map (fun v => red w (msgs g srcH ewv v))
    { st with dstdata := storeSet st.dstdata "neigh" reduced }

/-- The message-passing and combination phase of forward written
against the keyed frames, threading every write the source performs:
the zero-edge pre-fill and the reduction result into key `neigh` of
the destination frame, the working source feature into key `h` of the
source frame, and (gcn) the destination working feature into key `h`
of the destination frame; the reductions and the aggregate read the
frames back.  Errors return the store as written so far (the scope
wrapper discards it either way). -/
def forwardBodyMP (l : SAGEConv) (g : DGLGraph) (feat : FeatIn)
    (feat_src feat_dst : Mat) (useEw : Bool) (st : GraphStore) :
    Except Err Mat × GraphStore :=
  let st0 :=
    if g.edges.isEmpty then
      let zfill := List.replicate feat_dst.length (zeroVec l.in_src_feats)
      { st with dstdata := storeSet st.dstdata "neigh" zfill }
    else st
  let resN : Except Err Mat × GraphStore :=
    if l.aggre_type = "mean" then
      let srcH := if lin_before_mp l then feat_src.map (matVec l.fc_neigh) else feat_src
      let st1 := { st0 with srcdata := storeSet st0.srcdata "h" srcH }
      let st2 := updateAllSt g reduceMean
        (if lin_before_mp l then l.fc_neigh.length else l.in_src_feats) useEw st1
      let hN := storeGet st2.dstdata "neigh" []
      (.ok (if lin_before_mp l then hN else hN.map (matVec l.fc_neigh)), st2)
    else if l.aggre_type = "gcn" then
      match checkEqShape feat with
      | .error e => (.error e, st0)
      | .ok _ =>
        let srcH := if lin_before_mp l then feat_src.map (matVec l.fc_neigh) else feat_src
        let st1 := { st0 with srcdata := storeSet st0.srcdata "h" srcH }
        let dstH :=
          match feat with
          | .inr _ => if lin_before_mp l then feat_dst.map (matVec l.fc_neigh) else feat_dst
          | .inl _ => if g.isBlock then (storeGet st1.srcdata "h" []).take g.numDst
                      else storeGet st1.srcdata "h" []
        let st2 := { st1 with dstdata := storeSet st1.dstdata "h" dstH }
        let st3 := updateAllSt g reduceSum
          (if lin_before_mp l then l.fc_neigh.length else l.in_src_feats) useEw st2
        match madd (storeGet st3.dstdata "neigh" []) (storeGet st3.dstdata "h" []) with
        | .error e => (.error e, st3)
        | .ok s =>
          let hN := divDegs s g
          (.ok (if lin_before_mp l then hN else hN.map (matVec l.fc_neigh)), st3)
    else if l.aggre_type = "pool" then
      let srcH := feat_src.map (fun x => (applyPoolLin l.fc_pool x).map relu)
      let st1 := { st0 with srcdata := storeSet st0.srcdata "h" srcH }
      let st2 := updateAllSt g reduceMax l.in_src_feats useEw st1
      (.ok ((storeGet st2.dstdata "neigh" []).map (matVec l.fc_neigh)), st2)
    else if l.aggre_type = "lstm" then
      let st1 := { st0 with srcdata := storeSet st0.srcdata "h" feat_src }
      let st2 := updateAllSt g (lstmRed (l.lstm.getD (fun _ => []))) l.in_src_feats useEw st1
      (.ok ((storeGet st2.dstdata "neigh" []).map (matVec l.fc_neigh)), st2)
    else (.error (.config ("Aggregator type " ++ l.aggre_type ++ " not recognized.")), st0)
  (resN.1 >>= specCombine l feat_dst, resN.2)

/-- The body of forward against the keyed frames: feature
preprocessing, then the edge-weight assertion and the write of the
edge-weight tensor into the edge frame, then the message-passing and
combination phase. -/
def forwardBody (l : SAGEConv) (g : DGLGraph) (feat : FeatIn)
    (ew : Option (List ℚ)) (st : GraphStore) : Except Err Mat × GraphStore :=
  let fp := splitFeat g feat
  match ew with
  | some w =>
    if w.length = g.edges.length then
      forwardBodyMP l g feat fp.1 fp.2 true
        { st with edata := storeSet st.edata "_edge_weight" w }
    else (.error .shape, st)
  | none => forwardBodyMP l g feat fp.1 fp.2 false st

/-- Forward with the graph store made explicit: the whole body runs
inside `localScope`, so every write is discarded on every exit
path. -/
def forwardFull (l : SAGEConv) (g : DGLGraph) (feat : FeatIn)
    (ew : Option (List ℚ)) (st : GraphStore) : Except Err Mat × GraphStore :=
  localScope st (forwardBody l g feat ew)

/-- Decidable equality of fallible results, so that the model can be
evaluated on concrete inputs. -/
instance exceptDecEq {ε α : Type} [DecidableEq ε] [DecidableEq α] :
    DecidableEq (Except ε α) := fun x y =>
  match x, y with
  | .ok a, .ok b =>
    if h : a = b then .isTrue (by rw [h]) else .isFalse (by simp [h])
  | .error a, .error b =>
    if h : a = b then .isTrue (by rw [h]) else .isFalse (by simp [h])
  | .ok _, .error _ => .isFalse (by simp)
  | .error _, .ok _ => .isFalse (by simp)

/-- A concrete gcn layer with a nonzero (trained) bias, used as a
test fixture. -/
def gcnLayerC10 : SAGEConv :=
  { in_src_feats := 1, in_dst_feats := 1, out_feats := 1, aggre_type := "gcn",
    fc_pool := none, lstm := none, fc_self := none, fc_neigh := [[1]],
    bias := some [7], activation := none, norm := none }

/-! Helper lemmas about list indexing and the linear-algebra model. -/

theorem getD_replicate_of_lt {α} (a d : α) {n i : Nat} (h : i < n) :
    (List.replicate n a).getD i d = a := by
  rw [List.getD_eq_getElem _ _ (by simpa using h)]
  simp

theorem getD_map_of_lt {α β} (f : α → β) (l : List α) {i : Nat} (d : β) (d' : α)
    (h : i < l.length) : (l.map f).getD i d = f (l.getD i d') := by
  rw [List.getD_eq_getElem _ _ (by simpa using h), List.getD_eq_getElem _ _ h]
  simp

theorem getD_zipWith_of_lt {α β γ} (f : α → β → γ) (A : List α) (B : List β) {i : Nat}
    (dA : α) (dB : β) (dC : γ) (hA : i < A.length) (hB : i < B.length) :
    (List.zipWith f A B).getD i dC = f (A.getD i dA) (B.getD i dB) := by
  rw [List.getD_eq_getElem _ _ (by simp [List.length_zipWith]; omega),
      List.getElem_zipWith, List.getD_eq_getElem _ _ hA, List.getD_eq_getElem _ _ hB]

theorem getD_range_map_of_lt {β} (f : Nat → β) (n : Nat) {i : Nat} (d : β) (h : i < n) :
    (((List.range n).map f).getD i d) = f i := by
  rw [getD_map_of_lt f _ d 0 (by simpa using h)]
  rw [List.getD_eq_getElem _ _ (by simpa using h)]
  simp

theorem zipWith_map_same {α β γ δ} (f : β → γ → δ) (g1 : α → β) (g2 : α → γ)
    (l : List α) : List.zipWith f (l.map g1) (l.map g2) = l.map (fun x => f (g1 x) (g2 x)) := by
  induction l with
  | nil => rfl
  | cons a t ih => simp [ih]

theorem dot_replicate_zero (r : Vec) (n : Nat) : dot r (List.replicate n 0) = 0 := by
  induction r generalizing n with
  | nil => simp [dot]
  | cons a t ih =>
    cases n with
    | zero => simp [dot]
    | succ m => simpa [dot, List.replicate_succ] using ih m

theorem dot_map_mul_right (r x : Vec) (c : ℚ) :
    dot r (x.map (fun a => a * c)) = dot r x * c := by
  induction r generalizing x with
  | nil => simp [dot]
  | cons a t ih =>
    cases x with
    | nil => simp [dot]
    | cons b y =>
      simp only [dot, List.map_cons, List.zipWith_cons_cons, List.sum_cons]
      have := ih y
      simp only [dot] at this
      rw [this]
      ring

theorem dot_zipWith_add (r x y : Vec) (h : x.length = y.length) :
    dot r (List.zipWith (fun a b => a + b) x y) = dot r x + dot r y := by
  induction r generalizing x y with
  | nil => simp [dot]
  | cons a t ih =>
    cases x with
    | nil =>
      cases y with
      | nil => simp [dot]
      | cons b z => simp at h
    | cons b z =>
      cases y with
      | nil => simp at h
      | cons c w =>
        simp only [List.length_cons, Nat.succ.injEq] at h
        simp [dot, List.sum_cons, mul_add] at *
        rw [ih z w h]; ring

theorem matVec_length (W : Mat) (x : Vec) : (matVec W x).length = W.length := by
  simp [matVec]

theorem matVec_replicate_zero (W : Mat) (n : Nat) :
    matVec W (List.replicate n 0) = List.replicate W.length 0 := by
  induction W with
  | nil => rfl
  | cons r t ih => simp_all [matVec, dot_replicate_zero, List.replicate_succ]

theorem matVec_map_mul_right (W : Mat) (x : Vec) (c : ℚ) :
    matVec W (x.map (fun a => a * c)) = (matVec W x).map (fun a => a * c) := by
  simp only [matVec, List.map_map]
  apply List.map_congr_left
  intro r _
  simp only [Function.comp_apply]
  exact dot_map_mul_right r x c

theorem matVec_map_div (W : Mat) (x : Vec) (c : ℚ) :
    matVec W (x.map (fun a => a / c)) = (matVec W x).map (fun a => a / c) := by
  have h1 : (fun a : ℚ => a / c) = (fun a : ℚ => a * c⁻¹) := by
    funext a
    rw [div_eq_mul_inv]
  rw [h1, matVec_map_mul_right]

theorem matVec_zipWith_add (W : Mat) (x y : Vec) (h : x.length = y.length) :
    matVec W (List.zipWith (fun a b => a + b) x y)
      = List.zipWith (fun a b => a + b) (matVec W x) (matVec W y) := by
  induction W with
  | nil => rfl
  | cons r t ih => simp [matVec] at *; exact ⟨dot_zipWith_add r x y h, ih⟩

theorem reduceSum_length (w : Nat) (ms : List Vec) (h : ∀ m ∈ ms, m.length = w) :
    (reduceSum w ms).length = w := by
  induction ms with
  | nil => simp [reduceSum, zeroVec]
  | cons m t ih =>
    have hm := h m (by simp)
    have ht := ih (fun x hx => h x (by simp [hx]))
    simp [reduceSum] at *
    omega

theorem reduceSum_cons (w : Nat) (m : Vec) (t : List Vec) :
    reduceSum w (m :: t) = List.zipWith (fun a b => a + b) m (reduceSum w t) := rfl

theorem matVec_reduceSum (W : Mat) (w : Nat) (ms : List Vec)
    (h : ∀ m ∈ ms, m.length = w) :
    matVec W (reduceSum w ms) = reduceSum W.length (ms.map (matVec W)) := by
  induction ms with
  | nil => simpa [reduceSum, zeroVec] using matVec_replicate_zero W w
  | cons m t ih =>
    have hm := h m (by simp)
    have ht : ∀ x ∈ t, x.length = w := fun x hx => h x (by simp [hx])
    have hlen : m.length = (reduceSum w t).length := by rw [hm, reduceSum_length w t ht]
    rw [List.map_cons, reduceSum_cons, reduceSum_cons,
        matVec_zipWith_add W m _ hlen, ih ht]

theorem enumFrom_filter_map {α β} (l : List α) (n : Nat) (q : α → Bool) (f : α → β) :
    ((List.enumFrom n l).filter (fun p => q p.2)).map (fun p => f p.2)
      = (l.filter q).map f := by
  induction l generalizing n with
  | nil => rfl
  | cons a t ih =>
    simp only [List.enumFrom, List.filter]
    cases hq : q a <;> simp [hq, ih (n + 1)]

theorem snd_mem_of_mem_enumFrom {α} {l : List α} {n : Nat} {p : Nat × α}
    (h : p ∈ List.enumFrom n l) : p.2 ∈ l := by
  induction l generalizing n with
  | nil => simp [List.enumFrom] at h
  | cons a t ih =>
    simp only [List.enumFrom, List.mem_cons] at h
    rcases h with h | h
    · simp [h]
    · exact List.mem_cons_of_mem a (ih h)

theorem msgs_none_eq (g : DGLGraph) (srcH : Mat) (v : Nat) :
    msgs g srcH none v = (inNbrs g v).map (fun u => srcH.getD u []) := by
  unfold msgs inNbrs
  rw [List.enum_eq_enumFrom, enumFrom_filter_map g.edges 0
        (fun e => e.2 == v) (fun e => srcH.getD e.1 []), List.map_map]
  rfl

theorem msgs_width (g : DGLGraph) (fs : Mat) (ew : Option (List ℚ)) (v : Nat)
    (inSrc : Nat) (hw : ∀ r ∈ fs, r.length = inSrc)
    (hval : ∀ e ∈ g.edges, e.1 < fs.length) :
    ∀ m ∈ msgs g fs ew v, m.length = inSrc := by
  intro m hm
  unfold msgs at hm
  obtain ⟨p, hp, hpm⟩ := List.mem_map.mp hm
  have hp1 : p ∈ g.edges.enum := List.mem_of_mem_filter hp
  rw [List.enum_eq_enumFrom] at hp1
  have hpe : p.2 ∈ g.edges := snd_mem_of_mem_enumFrom hp1
  have hu : p.2.1 < fs.length := hval p.2 hpe
  have hrow : fs.getD p.2.1 [] ∈ fs := by
    rw [List.getD_eq_getElem _ _ hu]; exact List.getElem_mem hu
  have hlen := hw _ hrow
  cases ew with
  | none => simpa [← hpm] using hlen
  | some w => simpa [← hpm] using hlen

theorem msgs_map_matVec (W : Mat) (g : DGLGraph) (fs : Mat) (ew : Option (List ℚ))
    (v : Nat) (hval : ∀ e ∈ g.edges, e.1 < fs.length) :
    msgs g (fs.map (matVec W)) ew v = (msgs g fs ew v).map (matVec W) := by
  unfold msgs
  rw [List.map_map]
  apply List.map_congr_left
  intro p hp
  have hp1 : p ∈ g.edges.enum := List.mem_of_mem_filter hp
  rw [List.enum_eq_enumFrom] at hp1
  have hu : p.2.1 < fs.length := hval p.2 (snd_mem_of_mem_enumFrom hp1)
  cases ew with
  | none =>
    simp only [Function.comp_apply]
    exact getD_map_of_lt (matVec W) fs [] [] hu
  | some w =>
    simp only [Function.comp_apply]
    rw [getD_map_of_lt (matVec W) fs [] [] hu, matVec_map_mul_right]

theorem vadd_ok (x y : Vec) (h : x.length = y.length) :
    vadd x y = .ok (List.zipWith (fun a b => a + b) x y) := by
  simp [vadd, h]

theorem madd_ok (A B : Mat) (hlen : A.length = B.length)
    (hrow : ∀ p ∈ A.zip B, p.1.length = p.2.length) :
    madd A B = .ok (List.zipWith (fun a b => List.zipWith (fun x y => x + y) a b) A B) := by
  unfold madd
  rw [if_pos hlen]
  induction A generalizing B with
  | nil =>
    cases B with
    | nil => rfl
    | cons b t => simp at hlen
  | cons a t ih =>
    cases B with
    | nil => simp at hlen
    | cons b s =>
      simp only [List.length_cons, Nat.succ.injEq] at hlen
      have hab : a.length = b.length := hrow (a, b) (by simp [List.zip_cons_cons])
      have hrest : ∀ p ∈ t.zip s, p.1.length = p.2.length := by
        intro p hp; exact hrow p (by simp [List.zip_cons_cons, hp])
      simp only [List.zip_cons_cons, List.mapM_cons, vadd_ok a b hab]
      rw [ih s hlen hrest]
      rfl

theorem addBias_ok (A : Mat) (b : Vec) (h : ∀ r ∈ A, r.length = b.length) :
    addBias A b = .ok (A.map (fun r => List.zipWith (fun x y => x + y) r b)) := by
  unfold addBias
  induction A with
  | nil => rfl
  | cons r t ih =>
    have hr := h r (by simp)
    have ht : ∀ x ∈ t, x.length = b.length := fun x hx => h x (by simp [hx])
    simp only [List.mapM_cons, vadd_ok r b hr]
    rw [ih ht]
    rfl

theorem except_pure_bind {ε α β : Type} (a : α) (f : α → Except ε β) :
    (pure a : Except ε α) >>= f = f a := rfl

theorem except_bind_ok {ε α β : Type} (a : α) (f : α → Except ε β) :
    (Except.ok a : Except ε α) >>= f = f a := rfl

theorem except_bind_error {ε α β : Type} (e : ε) (f : α → Except ε β) :
    (Except.error e : Except ε α) >>= f = Except.error e := rfl

theorem exists_of_mem_zipWith {α β γ} {f : α → β → γ} {A : List α} {B : List β} {x : γ}
    (h : x ∈ List.zipWith f A B) : ∃ a ∈ A, ∃ b ∈ B, x = f a b := by
  induction A generalizing B with
  | nil => simp at h
  | cons a t ih =>
    cases B with
    | nil => simp at h
    | cons b s =>
      simp only [List.zipWith_cons_cons, List.mem_cons] at h
      rcases h with h | h
      · exact ⟨a, by simp, b, by simp, h⟩
      · obtain ⟨a2, ha2, b2, hb2, hx⟩ := ih h
        exact ⟨a2, by simp [ha2], b2, by simp [hb2], hx⟩

theorem reduceSum_nil (w : Nat) : reduceSum w [] = zeroVec w := rfl

theorem inNbrs_lt (g : DGLGraph) (v n : Nat) (hval : ∀ e ∈ g.edges, e.1 < n) :
    ∀ u ∈ inNbrs g v, u < n := by
  intro u hu
  obtain ⟨e, he, hue⟩ := List.mem_map.mp hu
  rw [← hue]
  exact hval e (List.mem_of_mem_filter he)

/-! Helper lemmas about the keyed frames. -/

theorem storeGet_set_same {α} (s : List (String × α)) (k : String) (v : α) (d : α) :
    storeGet (storeSet s k v) k d = v := by
  simp [storeGet, storeSet, List.find?_cons_of_pos]

theorem storeGet_set_ne {α} (s : List (String × α)) (k k' : String) (v : α) (d : α)
    (h : k ≠ k') : storeGet (storeSet s k' v) k d = storeGet s k d := by
  simp only [storeGet, storeSet]
  rw [List.find?_cons_of_neg]
  simp [Ne.symm h]

/-! Claim theorems. -/

/-- C7: for every aggregator tag other than mean, gcn, pool and lstm,
a forward call (without edge weights) fails with the configuration
error whose message names the unrecognized tag value; the check
happens at forward time, inside the aggregator dispatch. -/
theorem C7_unknown_aggregator (l : SAGEConv) (g : DGLGraph) (feat : FeatIn)
    (h : l.aggre_type ∉ (["mean", "gcn", "pool", "lstm"] : List String)) :
    forward l g feat none
      = .error (.config ("Aggregator type " ++ l.aggre_type ++ " not recognized.")) := by
  simp only [List.mem_cons, List.mem_singleton, not_or] at h
  obtain ⟨h1, h2, h3, h4⟩ := h
  simp only [forward, checkEdgeWeight, aggregate, h1, h2, h3, h4.1, if_false]
  rfl

/-- C7 witness at the concrete tag `attention`. -/
theorem C7_unknown_aggregator_witness :
    forward
      { in_src_feats := 1, in_dst_feats := 1, out_feats := 1, aggre_type := "attention",
        fc_pool := none, lstm := none, fc_self := some [[1]], fc_neigh := [[1]],
        bias := none, activation := none, norm := none }
      { numSrc := 2, numDst := 2, edges := [(0, 1)], isBlock := false }
      (Sum.inl [[1], [2]]) none
      = .error (.config ("Aggregator type " ++ "attention" ++ " not recognized.")) :=
  C7_unknown_aggregator _ _ _ (by decide)

/-- C8: after construction with any of the four variants, exactly the
variant-relevant parameters exist: the pooling projection iff the
variant is pool, the recurrent-unit parameters iff lstm, the self
projection iff the variant is not gcn, the neighbor projection
always, and the bias is the zero vector of length `out_feats` when
enabled and absent otherwise. -/
theorem C8_parameter_allocation (in_feats : Nat ⊕ (Nat × Nat)) (out_feats : Nat)
    (aggregator_type : String) (biasFlag : Bool) (norm : Option (Mat → ℚ → Mat))
    (activation : Option (ℚ → ℚ)) (wPool : Mat × Vec) (wLstm : List Vec → Vec)
    (wSelf wNeigh : Mat)
    (htag : aggregator_type ∈ (["mean", "gcn", "pool", "lstm"] : List String)) :
    ((SAGEConv.construct in_feats out_feats aggregator_type biasFlag norm activation
        wPool wLstm wSelf wNeigh).fc_pool.isSome ↔ aggregator_type = "pool") ∧
    ((SAGEConv.construct in_feats out_feats aggregator_type biasFlag norm activation
        wPool wLstm wSelf wNeigh).lstm.isSome ↔ aggregator_type = "lstm") ∧
    ((SAGEConv.construct in_feats out_feats aggregator_type biasFlag norm activation
        wPool wLstm wSelf wNeigh).fc_self.isSome ↔ aggregator_type ≠ "gcn") ∧
    ((SAGEConv.construct in_feats out_feats aggregator_type biasFlag norm activation
        wPool wLstm wSelf wNeigh).fc_neigh = wNeigh) ∧
    ((SAGEConv.construct in_feats out_feats aggregator_type biasFlag norm activation
        wPool wLstm wSelf wNeigh).bias
      = if biasFlag then some (zeroVec out_feats) else none) := by
  refine ⟨?_, ?_, ?_, rfl, rfl⟩ <;> simp [SAGEConv.construct] <;> split_ifs <;> simp_all

/-- C8 witness at a concrete pool-variant construction. -/
theorem C8_parameter_allocation_witness :
    ((SAGEConv.construct (Sum.inl 2) 3 "pool" true none none ([[1, 0], [0, 1]], [0, 0])
        (fun _ => []) [[1, 1]] [[2, 2]]).fc_pool.isSome ↔ ("pool" : String) = "pool") ∧
    ((SAGEConv.construct (Sum.inl 2) 3 "pool" true none none ([[1, 0], [0, 1]], [0, 0])
        (fun _ => []) [[1, 1]] [[2, 2]]).lstm.isSome ↔ ("pool" : String) = "lstm") ∧
    ((SAGEConv.construct (Sum.inl 2) 3 "pool" true none none ([[1, 0], [0, 1]], [0, 0])
        (fun _ => []) [[1, 1]] [[2, 2]]).fc_self.isSome ↔ ("pool" : String) ≠ "gcn") ∧
    ((SAGEConv.construct (Sum.inl 2) 3 "pool" true none none ([[1, 0], [0, 1]], [0, 0])
        (fun _ => []) [[1, 1]] [[2, 2]]).fc_neigh = [[2, 2]]) ∧
    ((SAGEConv.construct (Sum.inl 2) 3 "pool" true none none ([[1, 0], [0, 1]], [0, 0])
        (fun _ => []) [[1, 1]] [[2, 2]]).bias
      = if true then some (zeroVec 3) else none) :=
  C8_parameter_allocation (Sum.inl 2) 3 "pool" true none none ([[1, 0], [0, 1]], [0, 0])
    (fun _ => []) [[1, 1]] [[2, 2]] (by decide)

/-- C10: `reset_parameters` never modifies the bias vector (so after
any number of reset calls the bias equals the value it held before,
the zero vector right after a bias-enabled construction), and it
re-initializes only the projection parameters relevant to the
configured variant: the pooling projection is untouched unless the
variant is pool, the recurrent parameters unless lstm, and the self
projection is untouched on a gcn layer. -/
theorem C10_reset_preserves_bias (l : SAGEConv)
    (args : List ((Mat × (List Vec → Vec)) × (Mat × Mat))) :
    ((args.foldl (fun acc a => acc.reset_parameters a.1.1 a.1.2 a.2.1 a.2.2) l).bias
        = l.bias) ∧
    ∀ rPool rLstm rSelf rNeigh,
      ((l.reset_parameters rPool rLstm rSelf rNeigh).bias = l.bias) ∧
      (l.aggre_type ≠ "pool" →
        (l.reset_parameters rPool rLstm rSelf rNeigh).fc_pool = l.fc_pool) ∧
      (l.aggre_type ≠ "lstm" →
        (l.reset_parameters rPool rLstm rSelf rNeigh).lstm = l.lstm) ∧
      (l.aggre_type = "gcn" →
        (l.reset_parameters rPool rLstm rSelf rNeigh).fc_self = l.fc_self) := by
  constructor
  · induction args generalizing l with
    | nil => rfl
    | cons a t ih => rw [List.foldl_cons, ih]; rfl
  · intro rPool rLstm rSelf rNeigh
    refine ⟨rfl, fun hp => ?_, fun hl => ?_, fun hg => ?_⟩
    · simp [SAGEConv.reset_parameters, hp]
    · simp [SAGEConv.reset_parameters, hl]
    · simp [SAGEConv.reset_parameters, hg]

/-- C10 witness: a concrete gcn layer with a (trained, nonzero) bias,
two queued reset calls, and concrete fresh parameter draws. -/
theorem C10_reset_preserves_bias_witness :
    ((([(([[1]], fun _ => []), ([[5]], [[6]])),
        (([[2]], fun _ => []), ([[7]], [[8]]))] :
          List ((Mat × (List Vec → Vec)) × (Mat × Mat))).foldl
        (fun acc a => acc.reset_parameters a.1.1 a.1.2 a.2.1 a.2.2) gcnLayerC10).bias
      = gcnLayerC10.bias) ∧
    ((gcnLayerC10.reset_parameters [[3]] (fun _ => []) [[4]] [[9]]).bias
      = gcnLayerC10.bias) ∧
    ((gcnLayerC10.reset_parameters [[3]] (fun _ => []) [[4]] [[9]]).fc_pool
      = gcnLayerC10.fc_pool) ∧
    ((gcnLayerC10.reset_parameters [[3]] (fun _ => []) [[4]] [[9]]).lstm
      = gcnLayerC10.lstm) ∧
    ((gcnLayerC10.reset_parameters [[3]] (fun _ => []) [[4]] [[9]]).fc_self
      = gcnLayerC10.fc_self) :=
  ⟨(C10_reset_preserves_bias gcnLayerC10 _).1,
   ((C10_reset_preserves_bias gcnLayerC10 []).2 [[3]] (fun _ => []) [[4]] [[9]]).1,
   ((C10_reset_preserves_bias gcnLayerC10 []).2 [[3]] (fun _ => []) [[4]] [[9]]).2.1
     (by decide),
   ((C10_reset_preserves_bias gcnLayerC10 []).2 [[3]] (fun _ => []) [[4]] [[9]]).2.2.1
     (by decide),
   ((C10_reset_preserves_bias gcnLayerC10 []).2 [[3]] (fun _ => []) [[4]] [[9]]).2.2.2
     (by decide)⟩

/-- Any state whose bias attribute exists is left unchanged by the
migration. -/
theorem compat_noop (s : CompatState) (b : Option Vec) (h : s.bias_attr = some b) :
    compatibility_check s = .ok s := by
  unfold compatibility_check
  rw [h]

/-- A successful migration always leaves the bias attribute
present. -/
theorem compat_bias_attr_isSome (s s' : CompatState)
    (h : compatibility_check s = .ok s') : ∃ b, s'.bias_attr = some b := by
  obtain ⟨ba, nb, hs, sb⟩ := s
  cases ba with
  | some b =>
    simp [compatibility_check] at h
    subst h
    exact ⟨b, rfl⟩
  | none =>
    cases hs with
    | false =>
      simp [compatibility_check] at h
      subst h
      exact ⟨nb, rfl⟩
    | true =>
      cases nb with
      | none =>
        simp [compatibility_check] at h
        subst h
        exact ⟨none, rfl⟩
      | some bn =>
        cases sb with
        | none => simp [compatibility_check] at h
        | some bs =>
          simp [compatibility_check] at h
          subst h
          exact ⟨_, rfl⟩

/-- C5: the legacy-layout migration is idempotent, and on an instance
lacking the bias attribute with a tensor neighbor-projection bias it
stores as unified bias the neighbor bias plus (when a self projection
exists) the self bias, clearing both source biases; once the bias
attribute exists every later run leaves the state unchanged. -/
theorem C5_migration :
    (∀ s s', compatibility_check s = .ok s' → compatibility_check s' = .ok s') ∧
    (∀ (s : CompatState) (bn : Vec), s.bias_attr = none → s.fc_neigh_bias = some bn →
      (s.has_fc_self = true →
        ∀ bs, s.fc_self_bias = some bs →
          compatibility_check s
            = .ok { bias_attr := some (some (List.zipWith (fun a b => a + b) bn bs)),
                    fc_neigh_bias := none, has_fc_self := true, fc_self_bias := none }) ∧
      (s.has_fc_self = false →
        compatibility_check s
          = .ok { bias_attr := some (some bn), fc_neigh_bias := none,
                  has_fc_self := false, fc_self_bias := s.fc_self_bias })) := by
  constructor
  · intro s s' h
    obtain ⟨b, hb⟩ := compat_bias_attr_isSome s s' h
    exact compat_noop s' b hb
  · intro s bn h1 h2
    obtain ⟨ba, nb, hs, sb⟩ := s
    simp only at h1 h2
    subst h1; subst h2
    constructor
    · intro ht bs h3
      simp only at h3
      subst h3; subst ht
      simp [compatibility_check]
    · intro hf
      subst hf
      simp [compatibility_check]

/-- C5 witness: a concrete legacy state with both projection biases,
migrated once and then again. -/
theorem C5_migration_witness :
    (compatibility_check
        { bias_attr := some (some [1, 2]), fc_neigh_bias := none,
          has_fc_self := false, fc_self_bias := some [9] }
      = .ok { bias_attr := some (some [1, 2]), fc_neigh_bias := none,
              has_fc_self := false, fc_self_bias := some [9] }) ∧
    (compatibility_check
        { bias_attr := none, fc_neigh_bias := some [1, 2],
          has_fc_self := true, fc_self_bias := some [3, 4] }
      = .ok { bias_attr := some (some (List.zipWith (fun a b => a + b) [1, 2] [3, 4])),
              fc_neigh_bias := none, has_fc_self := true, fc_self_bias := none }) :=
  ⟨(C5_migration.1
      { bias_attr := none, fc_neigh_bias := some [1, 2],
        has_fc_self := false, fc_self_bias := some [9] }
      { bias_attr := some (some [1, 2]), fc_neigh_bias := none,
        has_fc_self := false, fc_self_bias := some [9] } (by decide)),
   ((C5_migration.2
      { bias_attr := none, fc_neigh_bias := some [1, 2],
        has_fc_self := true, fc_self_bias := some [3, 4] } [1, 2] rfl rfl).1
      rfl [3, 4] rfl)⟩

/-- Forward factors into the aggregator dispatch followed by the
output-combination pipeline. -/
theorem forward_eq_pipeline (l : SAGEConv) (g : DGLGraph) (feat : FeatIn)
    (ew : Option (List ℚ)) :
    forward l g feat ew
      = (do
          let _ ← checkEdgeWeight g ew
          let hn ← aggregate l g feat (splitFeat g feat).1 (splitFeat g feat).2 ew
          specCombine l (splitFeat g feat).2 hn) := rfl

/-- C4: forward computes, in order, the neighbor aggregate of the
dispatched variant, then the combination the specification words:
self projection of the destination features plus the aggregate except
for gcn (which uses the aggregate directly), then bias when present,
then elementwise activation when present, then normalization (called
with order 2) when present. -/
theorem C4_output_order (l : SAGEConv) (g : DGLGraph) (feat : FeatIn)
    (ew : Option (List ℚ)) :
    forward l g feat ew
      = (do
          let _ ← checkEdgeWeight g ew
          let hn ← aggregate l g feat (splitFeat g feat).1 (splitFeat g feat).2 ew
          specCombine l (splitFeat g feat).2 hn) :=
  forward_eq_pipeline l g feat ew

/-- C6: supplying an edge-weight tensor whose length differs from the
edge count makes forward fail with the shape error for every
aggregator tag (the assertion precedes the dispatch); with the
matching length, each incoming message is the unweighted message (the
source node's working feature) scaled by that edge's scalar
weight. -/
theorem C6_edge_weight (l : SAGEConv) (g : DGLGraph) (feat : FeatIn) (w : List ℚ) :
    (w.length ≠ g.edges.length → forward l g feat (some w) = .error .shape) ∧
    (w.length = g.edges.length → ∀ srcH v,
      msgs g srcH (some w) v
        = List.zipWith (fun m c => m.map (fun a => a * c))
            (msgs g srcH none v) (inWeights g w v)) := by
  constructor
  · intro h
    simp only [forward, checkEdgeWeight, h, if_false]
    rfl
  · intro _ srcH v
    unfold msgs inWeights
    rw [zipWith_map_same]

/-- C6 witness: a one-edge graph, a two-entry weight tensor for the
failure half and a one-entry weight tensor for the message half. -/
theorem C6_edge_weight_witness :
    (forward
        { in_src_feats := 1, in_dst_feats := 1, out_feats := 1, aggre_type := "mean",
          fc_pool := none, lstm := none, fc_self := some [[1]], fc_neigh := [[1]],
          bias := none, activation := none, norm := none }
        { numSrc := 2, numDst := 2, edges := [(0, 1)], isBlock := false }
        (Sum.inl [[1], [2]]) (some [1, 1]) = .error .shape) ∧
    (msgs { numSrc := 2, numDst := 2, edges := [(0, 1)], isBlock := false }
        [[5], [7]] (some [3]) 1
      = List.zipWith (fun m c => m.map (fun a => a * c))
          (msgs { numSrc := 2, numDst := 2, edges := [(0, 1)], isBlock := false }
            [[5], [7]] none 1)
          (inWeights { numSrc := 2, numDst := 2, edges := [(0, 1)], isBlock := false }
            [3] 1)) :=
  ⟨(C6_edge_weight
      { in_src_feats := 1, in_dst_feats := 1, out_feats := 1, aggre_type := "mean",
        fc_pool := none, lstm := none, fc_self := some [[1]], fc_neigh := [[1]],
        bias := none, activation := none, norm := none }
      { numSrc := 2, numDst := 2, edges := [(0, 1)], isBlock := false }
      (Sum.inl [[1], [2]]) [1, 1]).1 (by decide),
   (C6_edge_weight
      { in_src_feats := 1, in_dst_feats := 1, out_feats := 1, aggre_type := "mean",
        fc_pool := none, lstm := none, fc_self := some [[1]], fc_neigh := [[1]],
        bias := none, activation := none, norm := none }
      { numSrc := 2, numDst := 2, edges := [(0, 1)], isBlock := false }
      (Sum.inl [[1], [2]]) [3]).2 (by decide) [[5], [7]] 1⟩

/-- C2 counterexample: on a one-node graph with zero edges and a
non-square neighbor projection, the lin-before path of the mean
variant returns the unprojected zero pre-fill (width 2) while the
lin-after path returns the projected aggregate (width 1), so the two
placements of the projection do not agree on every graph. -/
theorem C2_counterexample :
    meanAggCore [[1, 0]] true 2
        { numSrc := 1, numDst := 1, edges := [], isBlock := false } [[1, 2]] [[1, 2]] none
      ≠ meanAggCore [[1, 0]] false 2
        { numSrc := 1, numDst := 1, edges := [], isBlock := false } [[1, 2]] [[1, 2]] none := by
  intro h
  have h2 := congrArg (fun m : Mat => (m.headD []).length) h
  exact absurd h2 (by decide)

/-- C2 amended: for every graph with at least one edge (and any
feature tensor whose rows have the source width and any optional
edge-weight tensor), applying the neighbor projection before the mean
reduction gives the same result as applying it to the reduced mean
afterwards; on a zero-edge graph the two paths differ whenever the
projection is not square, because the zero pre-fill (width
`in_src_feats`) is returned unprojected by the before path. -/
theorem C2_mean_lin_equiv (W : Mat) (inSrc : Nat) (g : DGLGraph) (fs fd : Mat)
    (ew : Option (List ℚ)) (hne : g.edges ≠ [])
    (hw : ∀ r ∈ fs, r.length = inSrc)
    (hval : ∀ e ∈ g.edges, e.1 < fs.length) :
    meanAggCore W true inSrc g fs fd ew = meanAggCore W false inSrc g fs fd ew := by
  unfold meanAggCore dstNeigh
  have hemp : g.edges.isEmpty = false := by
    cases hc : g.edges with
    | nil => exact absurd hc hne
    | cons a t => simp
  rw [hemp]
  simp only [Bool.false_eq_true, if_false, if_true]
  rw [List.map_map]
  apply List.map_congr_left
  intro v _
  simp only [Function.comp_apply]
  rw [msgs_map_matVec W g fs ew v hval]
  have hwid : ∀ m ∈ msgs g fs ew v, m.length = inSrc := msgs_width g fs ew v inSrc hw hval
  by_cases hms : msgs g fs ew v = []
  · rw [hms]
    simp [reduceMean, zeroVec, matVec_replicate_zero]
  · have hxe : (msgs g fs ew v).isEmpty = false := by
      cases hc : msgs g fs ew v with
      | nil => exact absurd hc hms
      | cons a t => simp
    have hxe2 : ((msgs g fs ew v).map (matVec W)).isEmpty = false := by
      cases hc : msgs g fs ew v with
      | nil => exact absurd hc hms
      | cons a t => simp [hc]
    unfold reduceMean
    rw [hxe, hxe2]
    simp only [Bool.false_eq_true, if_false, List.length_map]
    rw [← matVec_reduceSum W inSrc _ hwid, ← matVec_map_div]

/-- C2 witness for the amended equivalence: a two-node one-edge graph
with a widening projection and an edge weight. -/
theorem C2_mean_lin_equiv_witness :
    meanAggCore [[1], [2]] true 1
        { numSrc := 2, numDst := 2, edges := [(0, 1)], isBlock := false }
        [[3], [4]] [[3], [4]] (some [5])
      = meanAggCore [[1], [2]] false 1
        { numSrc := 2, numDst := 2, edges := [(0, 1)], isBlock := false }
        [[3], [4]] [[3], [4]] (some [5]) :=
  C2_mean_lin_equiv [[1], [2]] 1
    { numSrc := 2, numDst := 2, edges := [(0, 1)], isBlock := false }
    [[3], [4]] [[3], [4]] (some [5]) (by decide) (by decide) (by decide)

/-- The combination pipeline succeeds whenever the aggregate rows
have the output width, the row count matches the destination features
on the variants that add the self projection, the self projection
exists with output height off the gcn variant, and any bias has the
output length. -/
theorem specCombine_ok (l : SAGEConv) (fd hN : Mat)
    (hrows : ∀ r ∈ hN, r.length = l.out_feats)
    (hlen : l.aggre_type ≠ "gcn" → hN.length = fd.length)
    (hself : match l.fc_self with
             | some Ws => Ws.length = l.out_feats
             | none => l.aggre_type = "gcn")
    (hbias : match l.bias with
             | some b => b.length = l.out_feats
             | none => True) :
    ∃ M, specCombine l fd hN = .ok M := by
  by_cases hg : l.aggre_type = "gcn"
  · unfold specCombine
    rw [if_pos hg]
    simp only [except_pure_bind]
    cases hb : l.bias with
    | none => exact ⟨_, rfl⟩
    | some b =>
      have hbb : b.length = l.out_feats := by rw [hb] at hbias; exact hbias
      simp only [applyBiasOpt]
      rw [addBias_ok hN b (fun r hr => by rw [hrows r hr, hbb])]
      exact ⟨_, rfl⟩
  · obtain ⟨Ws, hWs, hWsl⟩ : ∃ Ws, l.fc_self = some Ws ∧ Ws.length = l.out_feats := by
      cases hs : l.fc_self with
      | some Ws =>
        rw [hs] at hself
        exact ⟨Ws, rfl, hself⟩
      | none =>
        rw [hs] at hself
        exact absurd hself hg
    have hmadd := madd_ok (fd.map (matVec (l.fc_self.getD []))) hN
      (by rw [List.length_map]; exact (hlen hg).symm)
      (by intro p hp
          obtain ⟨h1, h2⟩ := List.of_mem_zip hp
          obtain ⟨r, hr1, hr2⟩ := List.mem_map.mp h1
          rw [← hr2, hWs]
          simp only [Option.getD_some]
          rw [matVec_length, hWsl, hrows p.2 h2])
    have hrowsM : ∀ r ∈ List.zipWith (fun a b => List.zipWith (fun x y => x + y) a b)
        (fd.map (matVec (l.fc_self.getD []))) hN, r.length = l.out_feats := by
      intro r hr
      obtain ⟨a, ha, b, hb2, hx⟩ := exists_of_mem_zipWith hr
      obtain ⟨r2, hr21, hr22⟩ := List.mem_map.mp ha
      subst hx
      rw [List.length_zipWith, ← hr22, hWs]
      simp only [Option.getD_some]
      rw [matVec_length, hWsl, hrows b hb2]
      exact Nat.min_self _
    unfold specCombine
    rw [if_neg hg, hmadd]
    simp only [except_bind_ok]
    cases hb : l.bias with
    | none => exact ⟨_, rfl⟩
    | some b =>
      have hbb : b.length = l.out_feats := by rw [hb] at hbias; exact hbias
      simp only [applyBiasOpt]
      rw [addBias_ok _ b (fun r hr => by rw [hrowsM r hr, hbb])]
      exact ⟨_, rfl⟩

/-- C3 counterexample: the mean variant with `in_src_feats = 3` and
`out_feats = 2` on a one-node graph with zero edges fails with a
shape error (the unprojected zero pre-fill of width 3 cannot be added
to the projected self features of width 2), so forward does fail on
some zero-edge graphs. -/
theorem C3_counterexample :
    forward
      { in_src_feats := 3, in_dst_feats := 3, out_feats := 2, aggre_type := "mean",
        fc_pool := none, lstm := none, fc_self := some [[1, 0, 0], [0, 1, 0]],
        fc_neigh := [[1, 0, 0], [0, 1, 0]], bias := none, activation := none, norm := none }
      { numSrc := 1, numDst := 1, edges := [], isBlock := false }
      (Sum.inl [[1, 2, 3]]) none = .error .shape := by decide

/-- C3 amended: on every zero-edge graph, for every variant, the
neighbor aggregate before any projection is the zero tensor of width
`in_src_feats` (one row per destination feature row); and the forward
call succeeds provided `in_src_feats ≤ out_feats` or the variant is
pool or lstm.  For mean and gcn with `in_src_feats > out_feats` the
zero pre-fill reaches the output combination unprojected; when
`out_feats` exceeds one the elementwise addition then raises a shape
error, as the counterexample shows, while with `out_feats = 1` the
length-one side broadcasts and forward returns a tensor of width
`in_src_feats` instead of `out_feats`. -/
theorem C3_empty_graph (l : SAGEConv) (g : DGLGraph) (f : Mat)
    (hedges : g.edges = []) (hblock : g.isBlock = false)
    (htag : l.aggre_type = "mean" ∨ l.aggre_type = "gcn" ∨ l.aggre_type = "pool"
            ∨ l.aggre_type = "lstm")
    (hsucc : l.in_src_feats ≤ l.out_feats ∨ l.aggre_type = "pool" ∨ l.aggre_type = "lstm")
    (hw : ∀ r ∈ f, r.length = l.in_src_feats)
    (hWn : l.fc_neigh.length = l.out_feats)
    (hself : match l.fc_self with
             | some Ws => Ws.length = l.out_feats
             | none => l.aggre_type = "gcn")
    (hbias : match l.bias with
             | some b => b.length = l.out_feats
             | none => True) :
    (∀ w red srcH ew, dstNeigh l.in_src_feats w red g srcH f ew
        = List.replicate f.length (zeroVec l.in_src_feats)) ∧
    ∃ M, forward l g (Sum.inl f) none = .ok M := by
  have hfe : g.edges.isEmpty = true := by simp [hedges]
  constructor
  · intro w red srcH ew
    simp [dstNeigh, hfe]
  · rw [forward_eq_pipeline]
    have hsplit : splitFeat g (Sum.inl f) = (f, f) := by simp [splitFeat, hblock]
    rw [hsplit]
    rcases htag with h | h | h | h
    · -- mean
      have hio : l.in_src_feats ≤ l.out_feats := by
        rcases hsucc with hio | hp | hp <;> first | exact hio | (rw [h] at hp; exact absurd hp (by decide))
      have hlin : lin_before_mp l = false := by
        simp [lin_before_mp]
        omega
      have hagg : aggregate l g (Sum.inl f) f f none
          = .ok (List.replicate f.length (zeroVec l.out_feats)) := by
        simp only [aggregate, h]
        rw [if_pos (by trivial)]
        unfold meanAggCore
        rw [hlin]
        simp only [Bool.false_eq_true, if_false, dstNeigh, hfe, if_true,
          List.map_replicate, zeroVec, matVec_replicate_zero, hWn]
      rw [hagg]
      obtain ⟨M, hM⟩ := specCombine_ok l f (List.replicate f.length (zeroVec l.out_feats))
        (fun r hr => by rw [List.eq_of_mem_replicate hr]; simp [zeroVec])
        (fun _ => by simp) hself hbias
      exact ⟨M, by simpa using hM⟩
    · -- gcn
      have hio : l.in_src_feats ≤ l.out_feats := by
        rcases hsucc with hio | hp | hp <;> first | exact hio | (rw [h] at hp; exact absurd hp (by decide))
      have hlin : lin_before_mp l = false := by
        simp [lin_before_mp]
        omega
      have hmadd := madd_ok (List.replicate f.length (zeroVec l.in_src_feats)) f
        (by simp)
        (by intro p hp
            obtain ⟨h1, h2⟩ := List.mem_zip hp
            rw [List.eq_of_mem_replicate h1]
            simp [zeroVec, hw p.2 h2])
      have hagg : aggregate l g (Sum.inl f) f f none
          = .ok ((divDegs (List.zipWith (fun a b => List.zipWith (fun x y => x + y) a b)
              (List.replicate f.length (zeroVec l.in_src_feats)) f) g).map
                (matVec l.fc_neigh)) := by
        simp only [aggregate, h]
        rw [if_neg (by decide), if_pos (by trivial)]
        unfold checkEqShape
        simp only [except_bind_ok]
        rw [hlin]
        simp only [Bool.false_eq_true, if_false, hblock, dstNeigh, hfe, if_true]
        rw [hmadd]
        rfl
      rw [hagg]
      obtain ⟨M, hM⟩ := specCombine_ok l f _
        (fun r hr => by
          obtain ⟨r2, hr21, hr22⟩ := List.mem_map.mp hr
          rw [← hr22, matVec_length, hWn])
        (fun hng => absurd h hng) hself hbias
      exact ⟨M, by simpa using hM⟩
    · -- pool
      have hagg : aggregate l g (Sum.inl f) f f none
          = .ok (List.replicate f.length (zeroVec l.out_feats)) := by
        simp only [aggregate, h]
        rw [if_neg (by decide), if_neg (by decide), if_pos (by trivial)]
        simp only [dstNeigh, hfe, if_true, List.map_replicate, zeroVec,
          matVec_replicate_zero, hWn]
      rw [hagg]
      obtain ⟨M, hM⟩ := specCombine_ok l f (List.replicate f.length (zeroVec l.out_feats))
        (fun r hr => by rw [List.eq_of_mem_replicate hr]; simp [zeroVec])
        (fun _ => by simp) hself hbias
      exact ⟨M, by simpa using hM⟩
    · -- lstm
      have hagg : aggregate l g (Sum.inl f) f f none
          = .ok (List.replicate f.length (zeroVec l.out_feats)) := by
        simp only [aggregate, h]
        rw [if_neg (by decide), if_neg (by decide), if_neg (by decide), if_pos (by trivial)]
        simp only [dstNeigh, hfe, if_true, List.map_replicate, zeroVec,
          matVec_replicate_zero, hWn]
      rw [hagg]
      obtain ⟨M, hM⟩ := specCombine_ok l f (List.replicate f.length (zeroVec l.out_feats))
        (fun r hr => by rw [List.eq_of_mem_replicate hr]; simp [zeroVec])
        (fun _ => by simp) hself hbias
      exact ⟨M, by simpa using hM⟩

/-- C3 witness: a gcn layer with equal input and output widths on a
two-node zero-edge graph. -/
theorem C3_empty_graph_witness :
    ((∀ w red srcH ew, dstNeigh 2 w red
        { numSrc := 2, numDst := 2, edges := [], isBlock := false } srcH [[1, 2], [3, 4]] ew
        = List.replicate 2 (zeroVec 2)) ∧
     ∃ M, forward
        { in_src_feats := 2, in_dst_feats := 2, out_feats := 2, aggre_type := "gcn",
          fc_pool := none, lstm := none, fc_self := none, fc_neigh := [[1, 0], [0, 1]],
          bias := some [1, 1], activation := none, norm := none }
        { numSrc := 2, numDst := 2, edges := [], isBlock := false }
        (Sum.inl [[1, 2], [3, 4]]) none = .ok M) :=
  C3_empty_graph
    { in_src_feats := 2, in_dst_feats := 2, out_feats := 2, aggre_type := "gcn",
      fc_pool := none, lstm := none, fc_self := none, fc_neigh := [[1, 0], [0, 1]],
      bias := some [1, 1], activation := none, norm := none }
    { numSrc := 2, numDst := 2, edges := [], isBlock := false }
    [[1, 2], [3, 4]] rfl rfl (by decide) (by decide) (by decide) (by decide)
    (by decide) (by decide)

/-- C1 counterexample: on a one-node zero-edge graph with
`in_src_feats = 2` and `out_feats = 1`, the gcn dispatch succeeds (the
zero pre-fill of width 2 broadcasts against the width-1 projected self
feature) and produces an aggregate row of width 2, which is not the
width-1 row of the claimed formula — so the claimed equality fails on
some graphs. -/
theorem C1_counterexample :
    ((aggregate
        { in_src_feats := 2, in_dst_feats := 2, out_feats := 1, aggre_type := "gcn",
          fc_pool := none, lstm := none, fc_self := none, fc_neigh := [[1, 0]],
          bias := none, activation := none, norm := none }
        { numSrc := 1, numDst := 1, edges := [], isBlock := false }
        (Sum.inl [[1, 2]]) [[1, 2]] [[1, 2]] none).map
          (fun A => (A.getD 0 []).length) = .ok 2) ∧
    ¬ ((aggregate
        { in_src_feats := 2, in_dst_feats := 2, out_feats := 1, aggre_type := "gcn",
          fc_pool := none, lstm := none, fc_self := none, fc_neigh := [[1, 0]],
          bias := none, activation := none, norm := none }
        { numSrc := 1, numDst := 1, edges := [], isBlock := false }
        (Sum.inl [[1, 2]]) [[1, 2]] [[1, 2]] none).map (fun A => A.getD 0 [])
      = .ok (gcnClaimRow [[1, 0]] 2 1
          { numSrc := 1, numDst := 1, edges := [], isBlock := false } [[1, 2]] 0)) := by
  constructor
  · decide
  · intro h
    exact absurd (congrArg (Except.map List.length) h) (by decide)

/-- C1 amended: for the gcn variant on a homogeneous non-block graph
that has at least one edge — or any such graph when
`in_src_feats ≤ out_feats` — the neighbor aggregate that forward
produces equals, at every destination node of in-degree d, (sum of
incoming neighbor features + the node's own feature) divided
elementwise by d + 1, where the neighbor projection is applied to both
terms before the sum when `in_src_feats > out_feats` and once to the
quotient otherwise.  The final hypothesis excludes exactly the
zero-edge graphs with `in_src_feats > out_feats`, on which the claim
fails: there the pre-filled zero aggregate of width `in_src_feats`
violates the formula (with `out_feats = 1` a broadcast aggregate of
width `in_src_feats` is returned, as the counterexample shows, and
with `out_feats > 1` the dispatch raises a shape error). -/
theorem C1_gcn_aggregate (l : SAGEConv) (g : DGLGraph) (f : Mat)
    (hgcn : l.aggre_type = "gcn") (hblock : g.isBlock = false)
    (hnn : g.numSrc = g.numDst) (hf : f.length = g.numSrc)
    (hw : ∀ r ∈ f, r.length = l.in_src_feats)
    (hval : ∀ e ∈ g.edges, e.1 < g.numSrc)
    (hWn : l.fc_neigh.length = l.out_feats)
    (hne : g.edges ≠ [] ∨ l.in_src_feats ≤ l.out_feats) :
    ∃ A, aggregate l g (Sum.inl f) f f none = .ok A ∧
      ∀ v, v < g.numDst →
        A.getD v [] = gcnClaimRow l.fc_neigh l.in_src_feats l.out_feats g f v := by
  by_cases hE : g.edges = []
  · have hio : l.in_src_feats ≤ l.out_feats := by
      rcases hne with hne1 | hio
      · exact absurd hE hne1
      · exact hio
    have hlin : lin_before_mp l = false := by
      simp [lin_before_mp]
      omega
    have hfe : g.edges.isEmpty = true := by simp [hE]
    have hmadd := madd_ok (List.replicate f.length (zeroVec l.in_src_feats)) f
      (by simp)
      (by intro p hp
          obtain ⟨h1, h2⟩ := List.of_mem_zip hp
          rw [List.eq_of_mem_replicate h1]
          simp [zeroVec, hw p.2 h2])
    have hagg : aggregate l g (Sum.inl f) f f none
        = .ok ((divDegs (List.zipWith (fun a b => List.zipWith (fun x y => x + y) a b)
            (List.replicate f.length (zeroVec l.in_src_feats)) f) g).map
              (matVec l.fc_neigh)) := by
      simp only [aggregate, hgcn]
      rw [if_neg (by decide), if_pos (by trivial)]
      unfold checkEqShape
      simp only [except_bind_ok]
      rw [hlin]
      simp only [Bool.false_eq_true, if_false, hblock, dstNeigh, hfe, if_true]
      rw [hmadd]
      rfl
    refine ⟨_, hagg, ?_⟩
    · intro v hv
      have hvf : v < f.length := by omega
      rw [getD_map_of_lt (matVec l.fc_neigh) _ [] [] (by
        unfold divDegs
        rw [List.length_zipWith, List.length_zipWith, List.length_replicate,
          List.length_map, List.length_range]
        omega)]
      unfold divDegs
      rw [getD_zipWith_of_lt _ _ _ [] 0 []
          (by rw [List.length_zipWith, List.length_replicate]; omega)
          (by rw [List.length_map, List.length_range]; omega)]
      rw [getD_range_map_of_lt _ _ 0 hv]
      rw [getD_zipWith_of_lt _ _ _ [] [] []
          (by rw [List.length_replicate]; omega) hvf]
      rw [getD_replicate_of_lt _ _ hvf]
      unfold gcnClaimRow
      rw [if_neg (by omega)]
      simp [inNbrs, hE, reduceSum_nil]
  · have hfe : g.edges.isEmpty = false := by
      cases hc : g.edges with
      | nil => exact absurd hc hE
      | cons a t => simp
    cases hlin : lin_before_mp l with
    | true =>
      have hgt : l.in_src_feats > l.out_feats := by
        have h2 := hlin
        simp [lin_before_mp] at h2
        exact h2
      have hsrcw : ∀ r ∈ f.map (matVec l.fc_neigh), r.length = l.fc_neigh.length := by
        intro r hr
        obtain ⟨x, hx1, hx2⟩ := List.mem_map.mp hr
        rw [← hx2, matVec_length]
      have hval2 : ∀ e ∈ g.edges, e.1 < (f.map (matVec l.fc_neigh)).length := by
        intro e he
        rw [List.length_map, hf]
        exact hval e he
      have hmsg : ∀ v2, ∀ m ∈ msgs g (f.map (matVec l.fc_neigh)) none v2,
          m.length = l.fc_neigh.length :=
        fun v2 => msgs_width g _ none v2 _ hsrcw hval2
      have hmadd := madd_ok
        ((List.range g.numDst).map (fun v2 => reduceSum l.fc_neigh.length
            (msgs g (f.map (matVec l.fc_neigh)) none v2)))
        (f.map (matVec l.fc_neigh))
        (by rw [List.length_map, List.length_map, List.length_range]; omega)
        (by intro p hp
            obtain ⟨h1, h2⟩ := List.of_mem_zip hp
            obtain ⟨v2, hv2, hp1⟩ := List.mem_map.mp h1
            obtain ⟨x, hx1, hx2⟩ := List.mem_map.mp h2
            rw [← hp1, ← hx2, matVec_length, reduceSum_length _ _ (hmsg v2)])
      have hagg : aggregate l g (Sum.inl f) f f none
          = .ok (divDegs (List.zipWith (fun a b => List.zipWith (fun x y => x + y) a b)
              ((List.range g.numDst).map (fun v2 => reduceSum l.fc_neigh.length
                (msgs g (f.map (matVec l.fc_neigh)) none v2)))
              (f.map (matVec l.fc_neigh))) g) := by
        simp only [aggregate, hgcn]
        rw [if_neg (by decide), if_pos (by trivial)]
        unfold checkEqShape
        simp only [except_bind_ok]
        rw [hlin]
        simp only [if_true, hblock, dstNeigh, hfe, Bool.false_eq_true, if_false]
        rw [hmadd]
        rfl
      refine ⟨_, hagg, ?_⟩
      · intro v hv
        have hvf : v < f.length := by omega
        unfold divDegs
        rw [getD_zipWith_of_lt _ _ _ [] 0 []
            (by rw [List.length_zipWith, List.length_map, List.length_map,
                  List.length_range]
                omega)
            (by rw [List.length_map, List.length_range]; omega)]
        rw [getD_range_map_of_lt _ _ 0 hv]
        rw [getD_zipWith_of_lt _ _ _ [] [] []
            (by rw [List.length_map, List.length_range]; omega)
            (by rw [List.length_map]; omega)]
        rw [getD_range_map_of_lt _ _ [] hv]
        rw [getD_map_of_lt (matVec l.fc_neigh) f [] [] hvf]
        rw [msgs_none_eq]
        rw [show (inNbrs g v).map (fun u => (f.map (matVec l.fc_neigh)).getD u [])
              = (inNbrs g v).map (fun u => matVec l.fc_neigh (f.getD u [])) from
            List.map_congr_left (fun u hu =>
              getD_map_of_lt (matVec l.fc_neigh) f [] []
                (by rw [hf]; exact inNbrs_lt g v g.numSrc hval u hu))]
        unfold gcnClaimRow
        rw [if_pos hgt]
    | false =>
      have hmsg : ∀ v2, ∀ m ∈ msgs g f none v2, m.length = l.in_src_feats :=
        fun v2 => msgs_width g f none v2 _ hw (by rw [hf]; exact hval)
      have hmadd := madd_ok
        ((List.range g.numDst).map (fun v2 => reduceSum l.in_src_feats
            (msgs g f none v2)))
        f
        (by rw [List.length_map, List.length_range]; omega)
        (by intro p hp
            obtain ⟨h1, h2⟩ := List.of_mem_zip hp
            obtain ⟨v2, hv2, hp1⟩ := List.mem_map.mp h1
            rw [← hp1, reduceSum_length _ _ (hmsg v2), hw p.2 h2])
      have hagg : aggregate l g (Sum.inl f) f f none
          = .ok ((divDegs (List.zipWith (fun a b => List.zipWith (fun x y => x + y) a b)
              ((List.range g.numDst).map (fun v2 => reduceSum l.in_src_feats
                (msgs g f none v2))) f) g).map (matVec l.fc_neigh)) := by
        simp only [aggregate, hgcn]
        rw [if_neg (by decide), if_pos (by trivial)]
        unfold checkEqShape
        simp only [except_bind_ok]
        rw [hlin]
        simp only [Bool.false_eq_true, if_false, hblock, dstNeigh, hfe, if_true]
        rw [hmadd]
        rfl
      refine ⟨_, hagg, ?_⟩
      · intro v hv
        have hvf : v < f.length := by omega
        rw [getD_map_of_lt (matVec l.fc_neigh) _ [] [] (by
          unfold divDegs
          rw [List.length_zipWith, List.length_zipWith, List.length_map,
            List.length_range, List.length_map, List.length_range]
          omega)]
        unfold divDegs
        rw [getD_zipWith_of_lt _ _ _ [] 0 []
            (by rw [List.length_zipWith, List.length_map, List.length_range]; omega)
            (by rw [List.length_map, List.length_range]; omega)]
        rw [getD_range_map_of_lt _ _ 0 hv]
        rw [getD_zipWith_of_lt _ _ _ [] [] []
            (by rw [List.length_map, List.length_range]; omega) hvf]
        rw [getD_range_map_of_lt _ _ [] hv]
        rw [msgs_none_eq]
        unfold gcnClaimRow
        rw [if_neg (by
          have h2 := hlin
          simp [lin_before_mp] at h2
          omega)]

/-- C1 witness: the 3-node star graph with both leaves pointing into
the center, scalar features, and a scalar neighbor projection. -/
theorem C1_gcn_aggregate_witness :
    ∃ A, aggregate
        { in_src_feats := 1, in_dst_feats := 1, out_feats := 1, aggre_type := "gcn",
          fc_pool := none, lstm := none, fc_self := none, fc_neigh := [[2]],
          bias := none, activation := none, norm := none }
        { numSrc := 3, numDst := 3, edges := [(1, 0), (2, 0)], isBlock := false }
        (Sum.inl [[1], [2], [3]]) [[1], [2], [3]] [[1], [2], [3]] none = .ok A ∧
      ∀ v, v < 3 →
        A.getD v [] = gcnClaimRow [[2]] 1 1
          { numSrc := 3, numDst := 3, edges := [(1, 0), (2, 0)], isBlock := false }
          [[1], [2], [3]] v :=
  C1_gcn_aggregate
    { in_src_feats := 1, in_dst_feats := 1, out_feats := 1, aggre_type := "gcn",
      fc_pool := none, lstm := none, fc_self := none, fc_neigh := [[2]],
      bias := none, activation := none, norm := none }
    { numSrc := 3, numDst := 3, edges := [(1, 0), (2, 0)], isBlock := false }
    [[1], [2], [3]] rfl rfl rfl (by decide) (by decide) (by decide) (by decide)
    (Or.inl (by decide))

/-- The stateful message-passing phase computes, through the keyed
frames, exactly the dispatch of the pure model followed by the
combination pipeline. -/
theorem forwardBodyMP_result (l : SAGEConv) (g : DGLGraph) (feat : FeatIn)
    (fs fd : Mat) (useEw : Bool) (st : GraphStore) :
    (forwardBodyMP l g feat fs fd useEw st).1
      = (aggregate l g feat fs fd
          (if useEw then some (storeGet st.edata "_edge_weight" []) else none)) >>=
        specCombine l fd := by
  have hne1 : ∀ (s : List (String × Mat)) (v d : Mat),
      storeGet (storeSet s "h" v) "neigh" d = storeGet s "neigh" d :=
    fun s v d => storeGet_set_ne s "neigh" "h" v d (by decide)
  have hne2 : ∀ (s : List (String × Mat)) (v d : Mat),
      storeGet (storeSet s "neigh" v) "h" d = storeGet s "h" d :=
    fun s v d => storeGet_set_ne s "h" "neigh" v d (by decide)
  by_cases hm : l.aggre_type = "mean"
  · by_cases he : g.edges.isEmpty <;>
      simp [forwardBodyMP, aggregate, updateAllSt, dstNeigh, meanAggCore, he, hm,
        storeGet_set_same, hne1, hne2]
  · by_cases hg : l.aggre_type = "gcn"
    · cases hcs : checkEqShape feat with
      | error e =>
        by_cases he : g.edges.isEmpty <;>
          simp [forwardBodyMP, aggregate, hm, hg, hcs, he, except_bind_error]
      | ok u =>
        cases u
        by_cases he : g.edges.isEmpty <;>
          (simp [forwardBodyMP, aggregate, hm, hg, hcs, he, updateAllSt, dstNeigh,
            storeGet_set_same, hne1, hne2]
           split <;> rename_i x heq <;>
             simp [heq, except_bind_ok, except_bind_error, except_pure_bind])
    · by_cases hp : l.aggre_type = "pool"
      · by_cases he : g.edges.isEmpty <;>
          simp [forwardBodyMP, aggregate, updateAllSt, dstNeigh, he, hm, hg, hp,
            storeGet_set_same, hne1, hne2]
      · by_cases hl : l.aggre_type = "lstm"
        · by_cases he : g.edges.isEmpty <;>
            simp [forwardBodyMP, aggregate, updateAllSt, dstNeigh, he, hm, hg, hp, hl,
              storeGet_set_same, hne1, hne2]
        · by_cases he : g.edges.isEmpty <;>
            simp [forwardBodyMP, aggregate, he, hm, hg, hp, hl, except_bind_error]

/-- C9: the body of forward runs inside the local scope, so on every
exit path (success, edge-weight assertion failure, shape failure in
the gcn merge, unrecognized tag) the graph's keyed frames after the
call equal the frames before it, and the value the store-threaded
body returns is exactly the pure forward result. -/
theorem C9_local_scope (l : SAGEConv) (g : DGLGraph) (feat : FeatIn)
    (ew : Option (List ℚ)) (st : GraphStore) :
    (forwardFull l g feat ew st).2 = st ∧
    (forwardFull l g feat ew st).1 = forward l g feat ew := by
  constructor
  · rfl
  · show (forwardBody l g feat ew st).1 = forward l g feat ew
    rw [forward_eq_pipeline]
    cases ew with
    | none =>
      rw [show forwardBody l g feat none st
            = forwardBodyMP l g feat (splitFeat g feat).1 (splitFeat g feat).2 false st
          from rfl]
      rw [forwardBodyMP_result]
      simp [checkEdgeWeight, except_bind_ok]
    | some w =>
      rw [show forwardBody l g feat (some w) st
            = (if w.length = g.edges.length then
                 forwardBodyMP l g feat (splitFeat g feat).1 (splitFeat g feat).2 true
                   { st with edata := storeSet st.edata "_edge_weight" w }
               else (Except.error Err.shape, st))
          from rfl]
      by_cases hw : w.length = g.edges.length
      · rw [if_pos hw, forwardBodyMP_result]
        simp [checkEdgeWeight, hw, storeGet_set_same, except_bind_ok]
      · rw [if_neg hw]
        simp [checkEdgeWeight, hw, except_bind_error]

end SAGE
